import Mathlib

/-!
Verification of `check_presigned_url_expiry.py`.

The script reads one command-line argument (a presigned URL), extracts the
`X-Amz-Date` and `X-Amz-Expires` query parameters, parses them, computes
`expiry_time = dt + timedelta(seconds=expires)`, samples `datetime.utcnow()`
once, prints a report and exits 0, or prints a diagnostic and exits 1 on
malformed input.

The embedding models Python strings as `List Char` (the modelled inputs are
treated at the level of Unicode code points; `\d`, `isalpha` and integer
digits are modelled over their ASCII ranges).  Python `datetime` values are
records of `Nat` fields; `datetime` has no time zone here (the script only
uses naive UTC values) and microseconds are omitted: every datetime the
script constructs from its inputs has microsecond 0, and `datetime.utcnow()`
is modelled at second granularity (its microsecond component cannot change
the `now < expiry_time` comparison against a zero-microsecond expiry, nor
any other branch of the program).
-/

namespace PresignedCheck

/-- A naive `datetime.datetime` value (microseconds omitted, see above). -/
structure DateTime where
  year : Nat
  month : Nat
  day : Nat
  hour : Nat
  minute : Nat
  second : Nat
deriving DecidableEq, Repr

/-- `_DAYS_IN_MONTH` from CPython `datetime.py` (1-indexed, February = 28). -/
def DAYS_IN_MONTH : Nat → Nat
  | 1 => 31 | 2 => 28 | 3 => 31 | 4 => 30 | 5 => 31 | 6 => 30
  | 7 => 31 | 8 => 31 | 9 => 30 | 10 => 31 | 11 => 30 | 12 => 31
  | _ => 0

/-- `_DAYS_BEFORE_MONTH` from CPython `datetime.py`: days in a non-leap year
strictly before the first of the given month. -/
def DAYS_BEFORE_MONTH : Nat → Nat
  | 1 => 0 | 2 => 31 | 3 => 59 | 4 => 90 | 5 => 120 | 6 => 151
  | 7 => 181 | 8 => 212 | 9 => 243 | 10 => 273 | 11 => 304 | 12 => 334
  | _ => 0

/-- `_is_leap(year)`: `year % 4 == 0 and (year % 100 != 0 or year % 400 == 0)`. -/
def isLeap (year : Nat) : Bool :=
  year % 4 == 0 && (year % 100 != 0 || year % 400 == 0)

/-- `_days_in_month(year, month)`. -/
def daysInMonth (year month : Nat) : Nat :=
  if month = 2 ∧ isLeap year then 29 else DAYS_IN_MONTH month

/-- `_days_before_year(year)`: days before January 1st of `year`, counting
from ordinal day 1 = 0001-01-01. -/
def daysBeforeYear (year : Nat) : Nat :=
  let y := year - 1
  y * 365 + y / 4 - y / 100 + y / 400

/-- `_days_before_month(year, month)`. -/
def daysBeforeMonth (year month : Nat) : Nat :=
  DAYS_BEFORE_MONTH month + (if month > 2 ∧ isLeap year then 1 else 0)

/-- `_ymd2ord(year, month, day)`: proleptic Gregorian ordinal
(0001-01-01 has ordinal 1). -/
def ymd2ord (year month day : Nat) : Nat :=
  daysBeforeYear year + daysBeforeMonth year month + day

/-- Number of days in 400 Gregorian years (`_DI400Y`). -/
def DI400Y : Nat := 146097
/-- Number of days in 100 Gregorian years not containing a 400-multiple
(`_DI100Y`). -/
def DI100Y : Nat := 36524
/-- Number of days in a 4-year span containing a leap year (`_DI4Y`). -/
def DI4Y : Nat := 1461

/-- The month/day extraction step of `_ord2ymd`, as a function of the
day-of-span remainder `n < 365` and the algorithm's `leapyear` flag:
`month = (n + 50) >> 5`, followed by the one-month correction when the
estimate overshoots. Returns `(month, day)`. -/
def ord2md (n : Nat) (leap : Bool) : Nat × Nat :=
  let month := (n + 50) / 32
  let preceding := DAYS_BEFORE_MONTH month + (if month > 2 ∧ leap = true then 1 else 0)
  if preceding > n then
    let month' := month - 1
    let preceding' := preceding - (DAYS_IN_MONTH month' + (if month' = 2 ∧ leap = true then 1 else 0))
    (month', n - preceding' + 1)
  else
    (month, n - preceding + 1)

/-- `_ord2ymd(n)` from CPython `datetime.py`: inverse of `ymd2ord`, via the
146097/36524/1461/365-day division chain. -/
def ord2ymd (n : Nat) : Nat × Nat × Nat :=
  let n0 := n - 1
  let n400 := n0 / DI400Y
  let r400 := n0 % DI400Y
  let n100 := r400 / DI100Y
  let r100 := r400 % DI100Y
  let n4 := r100 / DI4Y
  let r4 := r100 % DI4Y
  let n1 := r4 / 365
  let r1 := r4 % 365
  let year := 400 * n400 + 100 * n100 + 4 * n4 + n1 + 1
  if n1 = 4 ∨ n100 = 4 then
    (year - 1, 12, 31)
  else
    let leap := n1 == 3 && (n4 != 24 || n100 == 3)
    let (month, day) := ord2md r1 leap
    (year, month, day)

/-- `datetime.max.toordinal()` (`_MAXORDINAL`), the ordinal of 9999-12-31. -/
def MAXORDINAL : Nat := 3652059

/-- A datetime on the linear timeline: seconds from 00:00:00 of ordinal
day 0 (so 0001-01-01T00:00:00 is second 86400). -/
def toSecs (dt : DateTime) : Int :=
  (ymd2ord dt.year dt.month dt.day : Int) * 86400
    + dt.hour * 3600 + dt.minute * 60 + dt.second

/-- Field validity exactly as enforced by the `datetime` constructor
(`_check_date_fields` / `_check_time_fields`, microsecond omitted). -/
def ValidDT (dt : DateTime) : Prop :=
  1 ≤ dt.year ∧ dt.year ≤ 9999 ∧
  1 ≤ dt.month ∧ dt.month ≤ 12 ∧
  1 ≤ dt.day ∧ dt.day ≤ daysInMonth dt.year dt.month ∧
  dt.hour ≤ 23 ∧ dt.minute ≤ 59 ∧ dt.second ≤ 59

instance (dt : DateTime) : Decidable (ValidDT dt) := by
  unfold ValidDT; infer_instance

/-- `datetime.__add__(self, timedelta(seconds=n))`.  Python first normalises
`timedelta(seconds=n)` (OverflowError when its day count exceeds the
±999999999-day timedelta bound), adds it to
`timedelta(self.toordinal(), hours=..., minutes=..., seconds=...)` (again
OverflowError past the timedelta bound), and finally requires
`0 < delta.days <= _MAXORDINAL`, rebuilding the date via `_ord2ymd` and the
time from `delta.seconds`.  Every OverflowError path is `none` here; the
script does not catch it. -/
def addTimedelta (dt : DateTime) (n : Int) : Option DateTime :=
  let dd := n / 86400
  if dd.natAbs > 999999999 then none
  else
    let total := toSecs dt + n
    let days := total / 86400
    if days > 999999999 then none
    else if 0 < days ∧ days ≤ (MAXORDINAL : Int) then
      let (y, m, d) := ord2ymd days.toNat
      let rem := (total % 86400).toNat
      some ⟨y, m, d, rem / 3600, rem % 3600 / 60, rem % 60⟩
    else none

/-- `datetime.__lt__`: lexicographic comparison of the field tuples
(`_cmp`), microseconds both 0 in every comparison the script performs. -/
def dtLt (a b : DateTime) : Bool :=
  if a.year ≠ b.year then a.year < b.year
  else if a.month ≠ b.month then a.month < b.month
  else if a.day ≠ b.day then a.day < b.day
  else if a.hour ≠ b.hour then a.hour < b.hour
  else if a.minute ≠ b.minute then a.minute < b.minute
  else a.second < b.second

/-! ## Strings: `str.split`, `urllib.parse.unquote`, `parse_qsl`, `parse_qs` -/

/-- `s.split(sep)` for a one-character separator (`""` splits to `[""]`). -/
def splitChar (sep : Char) : List Char → List (List Char)
  | [] => [[]]
  | c :: rest =>
    let r := splitChar sep rest
    if c = sep then [] :: r
    else
      match r with
      | h :: t => (c :: h) :: t
      | [] => [[c]]

/-- `s.split('=', 1)` when `'='` occurs: the part before the first `'='` and
everything after it; `none` when there is no `'='`. -/
def splitFirstEq : List Char → Option (List Char × List Char)
  | [] => none
  | c :: rest =>
    if c = '=' then some ([], rest)
    else (splitFirstEq rest).map (fun p => (c :: p.1, p.2))

/-- `lo <= c <= hi` as a `Bool`. -/
def chBetween (c lo hi : Char) : Bool :=
  decide (lo ≤ c ∧ c ≤ hi)

/-- ASCII hexadecimal digit (the keys of `_hextobyte`, both cases). -/
def isHexDigit (c : Char) : Bool :=
  c.isDigit || chBetween c 'a' 'f' || chBetween c 'A' 'F'

/-- Value of an ASCII hex digit. -/
def hexVal (c : Char) : Nat :=
  if c.isDigit then c.toNat - 48
  else if chBetween c 'a' 'f' then c.toNat - 87
  else c.toNat - 55

/-- `urllib.parse.unquote_to_bytes` on an ASCII run: each `%` followed by
two hex digits becomes that byte, a `%` not followed by two hex digits is
kept literally, everything else is its own byte. -/
def pctDecode : List Char → List UInt8
  | [] => []
  | '%' :: a :: b :: rest =>
    if isHexDigit a && isHexDigit b then
      UInt8.ofNat (16 * hexVal a + hexVal b) :: pctDecode rest
    else 37 :: pctDecode (a :: b :: rest)
  | '%' :: rest => 37 :: pctDecode rest
  | c :: rest => UInt8.ofNat c.toNat :: pctDecode rest

/-- U+FFFD, the replacement character produced by `errors='replace'`. -/
def replChar : Char := Char.ofNat 65533

/-- UTF-8 continuation byte. -/
def isCont (b : UInt8) : Bool :=
  128 ≤ b.toNat && b.toNat ≤ 191

/-- First continuation byte admissible after lead byte `n` of a 3-byte
sequence (excludes overlong forms and surrogates). -/
def cont3ok (n : Nat) (b : UInt8) : Bool :=
  if n = 224 then 160 ≤ b.toNat && b.toNat ≤ 191
  else if n = 237 then 128 ≤ b.toNat && b.toNat ≤ 159
  else isCont b

/-- First continuation byte admissible after lead byte `n` of a 4-byte
sequence (excludes overlong forms and planes above U+10FFFF). -/
def cont4ok (n : Nat) (b : UInt8) : Bool :=
  if n = 240 then 144 ≤ b.toNat && b.toNat ≤ 191
  else if n = 244 then 128 ≤ b.toNat && b.toNat ≤ 143
  else isCont b

/-- `bytes.decode('utf-8', errors='replace')`: strict UTF-8 with one U+FFFD
per maximal ill-formed subpart. -/
def utf8DecodeReplace : List UInt8 → List Char
  | [] => []
  | b :: rest =>
    let n := b.toNat
    if n < 128 then Char.ofNat n :: utf8DecodeReplace rest
    else if 194 ≤ n ∧ n ≤ 223 then
      match h1 : rest with
      | [] => [replChar]
      | c1 :: rest1 =>
        if isCont c1 then
          Char.ofNat ((n - 192) * 64 + (c1.toNat - 128)) :: utf8DecodeReplace rest1
        else replChar :: utf8DecodeReplace rest
    else if 224 ≤ n ∧ n ≤ 239 then
      match h1 : rest with
      | [] => [replChar]
      | c1 :: rest1 =>
        if cont3ok n c1 then
          match h2 : rest1 with
          | [] => [replChar]
          | c2 :: rest2 =>
            if isCont c2 then
              Char.ofNat ((n - 224) * 4096 + (c1.toNat - 128) * 64 + (c2.toNat - 128))
                :: utf8DecodeReplace rest2
            else replChar :: utf8DecodeReplace rest1
        else replChar :: utf8DecodeReplace rest
    else if 240 ≤ n ∧ n ≤ 244 then
      match h1 : rest with
      | [] => [replChar]
      | c1 :: rest1 =>
        if cont4ok n c1 then
          match h2 : rest1 with
          | [] => [replChar]
          | c2 :: rest2 =>
            if isCont c2 then
              match h3 : rest2 with
              | [] => [replChar]
              | c3 :: rest3 =>
                if isCont c3 then
                  Char.ofNat ((n - 240) * 262144 + (c1.toNat - 128) * 4096
                      + (c2.toNat - 128) * 64 + (c3.toNat - 128))
                    :: utf8DecodeReplace rest3
                else replChar :: utf8DecodeReplace rest2
            else replChar :: utf8DecodeReplace rest1
        else replChar :: utf8DecodeReplace rest
    else replChar :: utf8DecodeReplace rest
termination_by l => l.length
decreasing_by all_goals (subst_vars; simp only [List.length_cons]; omega)

/-- ASCII code point. -/
def isAsciiChar (c : Char) : Bool := c.toNat < 128

/-- Body of `urllib.parse.unquote`: ASCII runs are percent-decoded to bytes
and UTF-8-decoded with `errors='replace'`; non-ASCII characters pass
through unchanged (CPython splits on `_asciire` and unquotes only the
ASCII segments). -/
def unquoteCore : List Char → List Char
  | [] => []
  | c :: rest =>
    if h : isAsciiChar c = true then
      utf8DecodeReplace (pctDecode ((c :: rest).takeWhile isAsciiChar))
        ++ unquoteCore ((c :: rest).dropWhile isAsciiChar)
    else c :: unquoteCore rest
termination_by s => s.length
decreasing_by
  · simp only [List.dropWhile_cons, h, if_true]
    exact Nat.lt_succ_of_le (List.dropWhile_suffix _).sublist.length_le
  · simp

/-- `urllib.parse.unquote(s)` (with the `'%' not in s` early return). -/
def unquoteChars (s : List Char) : List Char :=
  if '%' ∈ s then unquoteCore s else s

/-- The `'+'` → `' '` replacement `parse_qsl` applies before unquoting. -/
def plusToSpace (s : List Char) : List Char :=
  s.map (fun c => if c = '+' then ' ' else c)

/-- Name/value decoding in `parse_qsl`. -/
def qslDecode (s : List Char) : List Char :=
  unquoteChars (plusToSpace s)

/-- One `name_value` item of the `parse_qsl` loop with the default
`keep_blank_values=False`, `strict_parsing=False`: empty items, items
without `'='` and items with an empty value are dropped. -/
def qslPair (nv : List Char) : Option (List Char × List Char) :=
  if nv = [] then none
  else
    match splitFirstEq nv with
    | none => none
    | some (n, v) => if v = [] then none else some (qslDecode n, qslDecode v)

/-- `urllib.parse.parse_qsl(qs)` with default arguments. -/
def parseQsl (qs : List Char) : List (List Char × List Char) :=
  if qs = [] then [] else (splitChar '&' qs).filterMap qslPair

/-- One step of the dict-of-lists construction in `parse_qs`: append the
value to the name's list, or add a new entry. -/
def addPair (d : List (List Char × List (List Char))) (p : List Char × List Char) :
    List (List Char × List (List Char)) :=
  if d.any (fun e => e.1 == p.1) then
    d.map (fun e => if e.1 == p.1 then (e.1, e.2 ++ [p.2]) else e)
  else d ++ [(p.1, [p.2])]

/-- `urllib.parse.parse_qs(qs)` as an insertion-ordered association of
lists. -/
def parseQs (qs : List Char) : List (List Char × List (List Char)) :=
  (parseQsl qs).foldl addPair []

/-- `parse_qs(qs).get(name, [None])[0]`: the first value recorded for
`name`, or `none` when the name is absent. -/
def paramsGet (qs name : List Char) : Option (List Char) :=
  match (parseQs qs).find? (fun e => e.1 == name) with
  | some e => e.2.head?
  | none => none

/-! ## `urlparse`: extraction of the query component -/

/-- Characters allowed in a scheme after its first letter
(`urllib.parse.scheme_chars`). -/
def isSchemeChar (c : Char) : Bool :=
  c.isAlphanum || c == '+' || c == '-' || c == '.'

/-- The scheme-splitting step of `urlsplit`: when the text before the first
`':'` is nonempty, starts with an (ASCII) letter and consists of scheme
characters, everything up to and including that `':'` is removed. -/
def splitScheme (url : List Char) : List Char :=
  let pre := url.takeWhile (fun c => c != ':')
  match url.dropWhile (fun c => c != ':') with
  | ':' :: after =>
    match pre with
    | [] => url
    | h :: t => if h.isAlpha && t.all isSchemeChar then after else url
  | _ => url

/-- Netloc delimiter set of `_splitnetloc` (`'/?#'`). -/
def notNetlocDelim (c : Char) : Bool :=
  c != '/' && c != '?' && c != '#'

/-- The fragment/query split of `urlsplit`: drop everything from the first
`'#'`, then return what follows the first `'?'` (or `""`). -/
def queryOf (u : List Char) : List Char :=
  let pre := u.takeWhile (fun c => c != '#')
  match pre.dropWhile (fun c => c != '?') with
  | '?' :: t => t
  | _ => []

/-- `urlparse(url).query`: control characters (`\t`, `\r`, `\n`) are
removed, the scheme is split off, then — when the remainder starts with
`"//"` — the netloc is cut at the first of `'/?#'` and checked for
unbalanced `'['`/`']'` (`ValueError("Invalid IPv6 URL")`, which the script
does not catch), and finally the fragment and query are split off.

Boundaries of the model.  CPython's `urlsplit` performs two further
validations that this function does not: (1) `_checknetloc`, whose first
line returns immediately for an empty or all-ASCII netloc — so it
contributes no error path on all-ASCII input — but which raises an
uncaught `ValueError` for a non-ASCII netloc whose NFKC normalization
introduces a separator character (e.g. netloc `℀`, which normalizes to
`a/c`); Unicode NFKC has no counterpart in this embedding.  (2) The
bracketed-host validation of CPython 3.11+, which only fires when the
netloc contains both `'['` and `']'`.  This function is therefore faithful
exactly for all-ASCII URLs together with the unbalanced-bracket error; the
theorems below quantify only over that domain (the amended C5 carries an
all-ASCII hypothesis and excludes both brackets). -/
def extractQuery (url0 : List Char) : Except (List Char) (List Char) :=
  let url1 := (url0.filter (fun c => c != '\t' && c != '\r' && c != '\n'))
  let url2 := splitScheme url1
  match url2 with
  | '/' :: '/' :: rest =>
    let netloc := rest.takeWhile notNetlocDelim
    let rest' := rest.dropWhile notNetlocDelim
    if ('[' ∈ netloc ∧ ']' ∉ netloc) ∨ (']' ∈ netloc ∧ '[' ∉ netloc) then
      .error ("Invalid IPv6 URL".data)
    else .ok (queryOf rest')
  | _ => .ok (queryOf url2)

/-! ## `datetime.strptime(s, "%Y%m%dT%H%M%SZ")`

CPython compiles the format into the regex
`(?P<Y>\d\d\d\d)(?P<m>1[0-2]|0[1-9]|[1-9])(?P<d>3[01]|[1-2]\d|0[1-9]|[1-9])T(?P<H>2[0-3]|[0-1]\d|\d)(?P<M>[0-5]\d|\d)(?P<S>6[0-1]|[0-5]\d|\d)Z`
with `IGNORECASE`, matches it at the start of the input (first match in
backtracking priority order), raises `ValueError` when there is no match or
when input remains after the match, and finally builds the `datetime`,
whose constructor validates the field ranges.  Each field matcher below
returns its possible `(value, rest)` matches in alternative order; the
candidate list of the whole pattern is their ordered join, so its head is
the regex engine's match. -/

/-- Value of an ASCII decimal digit. -/
def digitVal (c : Char) : Nat := c.toNat - 48

/-- `%Y`: `\d\d\d\d` (exactly four digits). -/
def matchY : List Char → List (Nat × List Char)
  | a :: b :: c :: d :: r =>
    if a.isDigit && b.isDigit && c.isDigit && d.isDigit then
      [(1000 * digitVal a + 100 * digitVal b + 10 * digitVal c + digitVal d, r)]
    else []
  | _ => []

/-- `%m`: `1[0-2]|0[1-9]|[1-9]`. -/
def matchMonth (s : List Char) : List (Nat × List Char) :=
  (match s with
   | a :: b :: r => if a == '1' && chBetween b '0' '2' then [(10 + digitVal b, r)] else []
   | _ => []) ++
  (match s with
   | a :: b :: r => if a == '0' && chBetween b '1' '9' then [(digitVal b, r)] else []
   | _ => []) ++
  (match s with
   | a :: r => if chBetween a '1' '9' then [(digitVal a, r)] else []
   | _ => [])

/-- `%d`: `3[01]|[1-2]\d|0[1-9]|[1-9]`. -/
def matchDay (s : List Char) : List (Nat × List Char) :=
  (match s with
   | a :: b :: r => if a == '3' && chBetween b '0' '1' then [(30 + digitVal b, r)] else []
   | _ => []) ++
  (match s with
   | a :: b :: r => if chBetween a '1' '2' && b.isDigit then [(10 * digitVal a + digitVal b, r)] else []
   | _ => []) ++
  (match s with
   | a :: b :: r => if a == '0' && chBetween b '1' '9' then [(digitVal b, r)] else []
   | _ => []) ++
  (match s with
   | a :: r => if chBetween a '1' '9' then [(digitVal a, r)] else []
   | _ => [])

/-- `%H`: `2[0-3]|[0-1]\d|\d`. -/
def matchHour (s : List Char) : List (Nat × List Char) :=
  (match s with
   | a :: b :: r => if a == '2' && chBetween b '0' '3' then [(20 + digitVal b, r)] else []
   | _ => []) ++
  (match s with
   | a :: b :: r => if chBetween a '0' '1' && b.isDigit then [(10 * digitVal a + digitVal b, r)] else []
   | _ => []) ++
  (match s with
   | a :: r => if a.isDigit then [(digitVal a, r)] else []
   | _ => [])

/-- `%M`: `[0-5]\d|\d`. -/
def matchMin (s : List Char) : List (Nat × List Char) :=
  (match s with
   | a :: b :: r => if chBetween a '0' '5' && b.isDigit then [(10 * digitVal a + digitVal b, r)] else []
   | _ => []) ++
  (match s with
   | a :: r => if a.isDigit then [(digitVal a, r)] else []
   | _ => [])

/-- `%S`: `6[0-1]|[0-5]\d|\d` (the regex admits leap seconds 60 and 61;
the `datetime` constructor rejects them afterwards). -/
def matchSec (s : List Char) : List (Nat × List Char) :=
  (match s with
   | a :: b :: r => if a == '6' && chBetween b '0' '1' then [(60 + digitVal b, r)] else []
   | _ => []) ++
  (match s with
   | a :: b :: r => if chBetween a '0' '5' && b.isDigit then [(10 * digitVal a + digitVal b, r)] else []
   | _ => []) ++
  (match s with
   | a :: r => if a.isDigit then [(digitVal a, r)] else []
   | _ => [])

/-- A literal character of the format, matched under `IGNORECASE`. -/
def matchLitCI (c : Char) (s : List Char) : List (Unit × List Char) :=
  match s with
  | a :: r => if a.toLower == c.toLower then [((), r)] else []
  | _ => []

/-- The six captured fields of the format, before range validation. -/
structure RawFields where
  y : Nat
  mo : Nat
  d : Nat
  hh : Nat
  mi : Nat
  ss : Nat
deriving DecidableEq, Repr

/-- All full matches of the compiled pattern, in backtracking priority
order, each with the unconsumed remainder of the input. -/
def dtCandidates (s : List Char) : List (RawFields × List Char) :=
  (matchY s).flatMap fun p1 =>
  (matchMonth p1.2).flatMap fun p2 =>
  (matchDay p2.2).flatMap fun p3 =>
  (matchLitCI 'T' p3.2).flatMap fun p4 =>
  (matchHour p4.2).flatMap fun p5 =>
  (matchMin p5.2).flatMap fun p6 =>
  (matchSec p6.2).flatMap fun p7 =>
  (matchLitCI 'Z' p7.2).map fun p8 =>
    (⟨p1.1, p2.1, p3.1, p5.1, p6.1, p7.1⟩, p8.2)

/-- The `datetime(year, month, day, hour, minute, second)` constructor:
`_check_date_fields` and `_check_time_fields`. -/
def mkDateTime (y mo d hh mi ss : Nat) : Except (List Char) DateTime :=
  if ¬(1 ≤ y ∧ y ≤ 9999) then .error ("year is out of range".data)
  else if ¬(1 ≤ mo ∧ mo ≤ 12) then .error ("month must be in 1..12".data)
  else if ¬(1 ≤ d ∧ d ≤ daysInMonth y mo) then .error ("day is out of range for month".data)
  else if ¬(hh ≤ 23) then .error ("hour must be in 0..23".data)
  else if ¬(mi ≤ 59) then .error ("minute must be in 0..59".data)
  else if ¬(ss ≤ 59) then .error ("second must be in 0..59".data)
  else .ok ⟨y, mo, d, hh, mi, ss⟩

/-- `datetime.strptime(s, "%Y%m%dT%H%M%SZ")`: `.error` is the message of
the `ValueError` the call raises. -/
def strptimeZ (s : List Char) : Except (List Char) DateTime :=
  match dtCandidates s with
  | [] => .error ("time data does not match format %Y%m%dT%H%M%SZ: ".data ++ s)
  | (f, rest) :: _ =>
    if rest ≠ [] then .error ("unconverted data remains: ".data ++ rest)
    else mkDateTime f.y f.mo f.d f.hh f.mi f.ss

/-! ## `int(s)` -/

/-- The whitespace stripped by `int()` around a numeric literal (ASCII
range). -/
def isPyWs (c : Char) : Bool :=
  c == ' ' || c == '\t' || c == '\n' || c == '\r' || c == '\x0b' || c == '\x0c'

/-- Digits of an integer literal after its first digit: further digits
with single underscores allowed only between digits. -/
def digitsUndAux (acc : Nat) : List Char → Option Nat
  | [] => some acc
  | '_' :: c :: r => if c.isDigit then digitsUndAux (acc * 10 + digitVal c) r else none
  | ['_'] => none
  | c :: r => if c.isDigit then digitsUndAux (acc * 10 + digitVal c) r else none

/-- A nonempty digit sequence with optional single underscores between
digits, as accepted by `int()` (ASCII digits). -/
def digitsUnd : List Char → Option Nat
  | c :: r => if c.isDigit then digitsUndAux (digitVal c) r else none
  | [] => none

/-- `s.strip()` of the `int()` whitespace. -/
def stripWs (s : List Char) : List Char :=
  ((s.dropWhile isPyWs).reverse.dropWhile isPyWs).reverse

/-- `int(s)`: optional surrounding whitespace, optional single sign,
base-10 digits with underscores; anything else raises `ValueError`. -/
def pyInt (s : List Char) : Except (List Char) Int :=
  let core : Option Int :=
    match stripWs s with
    | '+' :: r => (digitsUnd r).map (fun n => (n : Int))
    | '-' :: r => (digitsUnd r).map (fun n => -(n : Int))
    | r => (digitsUnd r).map (fun n => (n : Int))
  match core with
  | some v => .ok v
  | none => .error ("invalid literal for int() with base 10: ".data ++ s)

/-! ## The program -/

/-- The literal parameter name `X-Amz-Date`. -/
def dateName : List Char := "X-Amz-Date".data
/-- The literal parameter name `X-Amz-Expires`. -/
def expName : List Char := "X-Amz-Expires".data

/-- Control-flow outcome of one run of the script on a given URL argument:
the terminal state the straight-line code reaches. -/
inductive Outcome where
  | usage
  | missingParam
  | parseError (msg : List Char)
  | crashValueError (msg : List Char)
  | crashOverflow
  | report (dt expiry now : DateTime)
deriving DecidableEq, Repr

/-- Lines 9-28 of the script: extract the query (line 10-11, an uncaught
`ValueError` from `urlparse` is `crashValueError`), take the first value
of each parameter (13-14), test falsiness (16-18), parse the date and the
integer inside the `try` block (21-26), and compute
`expiry_time = dt + timedelta(seconds=expires)` (28, an uncaught
`OverflowError` is `crashOverflow`). -/
def checkUrl (url : List Char) (now : DateTime) : Outcome :=
  match extractQuery url with
  | .error m => .crashValueError m
  | .ok q =>
    match paramsGet q dateName, paramsGet q expName with
    | some ds, some es =>
      if ds = [] ∨ es = [] then .missingParam
      else
        match strptimeZ ds with
        | .error e => .parseError e
        | .ok dt =>
          match pyInt es with
          | .error e => .parseError e
          | .ok n =>
            match addTimedelta dt n with
            | none => .crashOverflow
            | some ex => .report dt ex now
    | _, _ => .missingParam

/-- What one run writes to stdout, its exit status, and whether it died
with an uncaught exception (traceback on stderr, exit status 1). -/
structure RunResult where
  out : List (List Char)
  exitCode : Nat
  crashed : Bool
deriving DecidableEq, Repr

/-- Line 6 of the script. -/
def usageMsg : List Char :=
  "Usage: python check_presigned_url_expiry.py <presigned_url>".data
/-- Line 17 of the script. -/
def missingMsg : List Char :=
  "Could not find X-Amz-Date or X-Amz-Expires in the URL.".data
/-- Line 25 of the script, before the exception text. -/
def errParsingPrefixMsg : List Char :=
  "Error parsing date or expires: ".data
/-- Line 35 of the script. -/
def validMsg : List Char :=
  "The pre-signed URL is still valid.".data
/-- Line 37 of the script. -/
def expiredMsg : List Char :=
  "The pre-signed URL has expired.".data

/-- Decimal rendering of `n` left-padded with zeros to width `w`
(`%02d`-style, as used by `datetime.isoformat`). -/
def padNum (w n : Nat) : List Char :=
  let ds := Nat.toDigits 10 n
  List.replicate (w - ds.length) '0' ++ ds

/-- `str(datetime)` = `isoformat(sep=' ')` with zero microseconds:
`YYYY-MM-DD HH:MM:SS`. -/
def fmtDT (dt : DateTime) : List Char :=
  padNum 4 dt.year ++ ['-'] ++ padNum 2 dt.month ++ ['-'] ++ padNum 2 dt.day
    ++ [' '] ++ padNum 2 dt.hour ++ [':'] ++ padNum 2 dt.minute ++ [':'] ++ padNum 2 dt.second

/-- Stdout and exit status of each terminal state: the usage/missing/parse
branches print one line and call `sys.exit(1)`; an uncaught exception
prints nothing to stdout and the interpreter exits with status 1; the
success path prints the three timestamp lines (31-33) and the verdict
line chosen by `now < expiry_time` (34-37), then falls off the end of the
script (exit status 0). -/
def renderOutcome : Outcome → RunResult
  | .usage => ⟨[usageMsg], 1, false⟩
  | .missingParam => ⟨[missingMsg], 1, false⟩
  | .parseError e => ⟨[errParsingPrefixMsg ++ e], 1, false⟩
  | .crashValueError _ => ⟨[], 1, true⟩
  | .crashOverflow => ⟨[], 1, true⟩
  | .report dt ex nw =>
    ⟨["URL generated at: ".data ++ fmtDT dt ++ " UTC".data,
      "Expires at:      ".data ++ fmtDT ex ++ " UTC".data,
      "Current time:    ".data ++ fmtDT nw ++ " UTC".data,
      if dtLt nw ex then validMsg else expiredMsg], 0, false⟩

/-- The whole script: `argv` is `sys.argv` (program name included), `now`
is the value `datetime.utcnow()` returns on line 29 — the single clock
sample of the run.  `len(sys.argv) != 2` prints usage and exits 1 before
touching the URL or the clock. -/
def runChecker (argv : List (List Char)) (now : DateTime) : RunResult :=
  match argv with
  | [_, url] => renderOutcome (checkUrl url now)
  | _ => renderOutcome .usage

/-- Following the spec's words, not the code: a string matches the fixed
format `YYYYMMDD'T'HHMMSS'Z'` when it is exactly four digits, two digits,
two digits, a literal `T`, three two-digit groups and a literal `Z`.  Used
to compare the spec's notion of "matches the fixed format" with what
`strptime` actually accepts. -/
def specFixedFormat (s : List Char) : Bool :=
  match s with
  | [y1, y2, y3, y4, m1, m2, d1, d2, t, h1, h2, mi1, mi2, s1, s2, z] =>
    y1.isDigit && y2.isDigit && y3.isDigit && y4.isDigit &&
    m1.isDigit && m2.isDigit && d1.isDigit && d2.isDigit && t == 'T' &&
    h1.isDigit && h2.isDigit && mi1.isDigit && mi2.isDigit &&
    s1.isDigit && s2.isDigit && z == 'Z'
  | _ => false

/-! ## The Gregorian calendar arithmetic underlying `datetime`:
`_ord2ymd` inverts `_ymd2ord` -/

/-- `_days_before_year` of a year written as `400a + 100b + 4c + d + 1`:
the closed form of the 146097/36524/1461/365 decomposition. -/
theorem dBY_decomp (a b c d : Nat) (hb : b ≤ 3) (hc : c ≤ 24) (hd : d ≤ 3) :
    daysBeforeYear (400*a + 100*b + 4*c + d + 1)
      = 146097*a + 36524*b + 1461*c + 365*d := by
  simp only [daysBeforeYear]
  omega

/-- The leap-year rule, arithmetically. -/
theorem isLeap_iff (y : Nat) :
    isLeap y = true ↔ (y % 4 = 0 ∧ (y % 100 ≠ 0 ∨ y % 400 = 0)) := by
  simp [isLeap]

set_option maxHeartbeats 1000000 in
/-- December 31st closes its year: its ordinal is the day count before the
next year. -/
theorem ymd2ord_dec31 (y : Nat) (h : 1 ≤ y) : ymd2ord y 12 31 = daysBeforeYear (y + 1) := by
  rcases Bool.eq_false_or_eq_true (isLeap y) with h1 | h0
  · have hP : y % 4 = 0 ∧ (y % 100 ≠ 0 ∨ y % 400 = 0) := (isLeap_iff y).mp h1
    simp only [ymd2ord, daysBeforeMonth, DAYS_BEFORE_MONTH, daysBeforeYear, h1]
    norm_num
    omega
  · have hP : ¬(y % 4 = 0 ∧ (y % 100 ≠ 0 ∨ y % 400 = 0)) := by
      rw [← isLeap_iff, h0]
      simp
    simp only [ymd2ord, daysBeforeMonth, DAYS_BEFORE_MONTH, daysBeforeYear, h0]
    norm_num
    omega

set_option maxRecDepth 4096
set_option maxHeartbeats 1000000

/-- The month-probing step of `_ord2ymd` is exact on every day-of-year
remainder: the produced month and day are in range and invert the
days-before-month sum. -/
theorem ord2md_spec : ∀ r < 365, ∀ leap : Bool,
    1 ≤ (ord2md r leap).1 ∧ (ord2md r leap).1 ≤ 12 ∧
    1 ≤ (ord2md r leap).2 ∧
    (ord2md r leap).2 ≤ DAYS_IN_MONTH (ord2md r leap).1
      + (if (ord2md r leap).1 = 2 ∧ leap = true then 1 else 0) ∧
    DAYS_BEFORE_MONTH (ord2md r leap).1
      + (if (ord2md r leap).1 > 2 ∧ leap = true then 1 else 0)
      + (ord2md r leap).2 = r + 1 := by decide

/-- `_ord2ymd` is a right inverse of `_ymd2ord` on the ordinal range of
`datetime`, and returns a valid calendar date. -/
theorem ord2ymd_spec (n : Nat) (h1 : 1 ≤ n) (h2 : n ≤ MAXORDINAL) :
    ymd2ord (ord2ymd n).1 (ord2ymd n).2.1 (ord2ymd n).2.2 = n
    ∧ 1 ≤ (ord2ymd n).1 ∧ (ord2ymd n).1 ≤ 9999
    ∧ 1 ≤ (ord2ymd n).2.1 ∧ (ord2ymd n).2.1 ≤ 12
    ∧ 1 ≤ (ord2ymd n).2.2
    ∧ (ord2ymd n).2.2 ≤ daysInMonth (ord2ymd n).1 (ord2ymd n).2.1 := by
  obtain ⟨n0, rfl⟩ : ∃ m, n = m + 1 := ⟨n - 1, by omega⟩
  have hn0 : n0 ≤ 3652058 := by
    have := h2
    simp only [MAXORDINAL] at this
    omega
  simp only [ord2ymd, DI400Y, DI100Y, DI4Y, Nat.add_sub_cancel]
  generalize ha : n0 / 146097 = a
  generalize hrA : n0 % 146097 = rA
  generalize hb : rA / 36524 = b
  generalize hrB : rA % 36524 = rB
  generalize hc : rB / 1461 = c
  generalize hrC : rB % 1461 = rC
  generalize hd : rC / 365 = d
  generalize hr : rC % 365 = r
  have hsum : n0 = 146097*a + 36524*b + 1461*c + 365*d + r := by omega
  have hb4 : b ≤ 4 := by omega
  have hc24 : c ≤ 24 := by omega
  have hd4 : d ≤ 4 := by omega
  have hr365 : r < 365 := by omega
  have hedge_b : b = 4 → c = 0 ∧ d = 0 ∧ r = 0 := by omega
  have hedge_d : d = 4 → r = 0 ∧ c ≤ 23 := by omega
  split
  case isTrue hcase =>
    simp only []
    refine ⟨?_, by omega, by omega, by norm_num, by norm_num, by norm_num,
      by simp [daysInMonth, DAYS_IN_MONTH]⟩
    rw [ymd2ord_dec31 _ (show 1 ≤ 400*a + 100*b + 4*c + d by omega)]
    rcases hcase with hde | hbe
    · obtain ⟨hr0, hc23⟩ := hedge_d hde
      have hstep : 400*a + 100*b + 4*c + d + 1 = 400*a + 100*b + 4*(c+1) + 0 + 1 := by omega
      rw [hstep, dBY_decomp a b (c+1) 0 (by omega) (by omega) (by omega)]
      omega
    · obtain ⟨hc0, hd0, hr0⟩ := hedge_b hbe
      have hstep : 400*a + 100*b + 4*c + d + 1 = 400*(a+1) + 100*0 + 4*0 + 0 + 1 := by omega
      rw [hstep, dBY_decomp (a+1) 0 0 0 (by omega) (by omega) (by omega)]
      omega
  case isFalse hcase =>
    have hd3 : d ≤ 3 := by omega
    have hb3 : b ≤ 3 := by omega
    have hiff : isLeap (400*a + 100*b + 4*c + d + 1) = true
        ↔ (d == 3 && (c != 24 || b == 3)) = true := by
      rw [isLeap_iff]
      simp only [Bool.and_eq_true, beq_iff_eq, Bool.or_eq_true, bne_iff_ne]
      omega
    have hleap_eq : isLeap (400*a + 100*b + 4*c + d + 1) = (d == 3 && (c != 24 || b == 3)) :=
      Bool.eq_iff_iff.mpr hiff
    rcases hmd : ord2md r (d == 3 && (c != 24 || b == 3)) with ⟨m, dy⟩
    simp only [hmd]
    have hspec := ord2md_spec r hr365 (d == 3 && (c != 24 || b == 3))
    rw [hmd] at hspec
    simp only [] at hspec
    obtain ⟨hm1, hm12, hdy1, hdyle, hsum2⟩ := hspec
    refine ⟨?_, by omega, by omega, hm1, hm12, hdy1, ?_⟩
    · simp only [ymd2ord, daysBeforeMonth, hleap_eq, dBY_decomp a b c d hb3 hc24 hd3]
      omega
    · simp only [daysInMonth, hleap_eq]
      rcases Bool.eq_false_or_eq_true (d == 3 && (c != 24 || b == 3)) with hlp | hlp
      · rw [hlp] at hdyle ⊢
        by_cases hm2 : m = 2
        · subst hm2
          simp [DAYS_IN_MONTH] at hdyle ⊢
          omega
        · simp [hm2] at hdyle ⊢
          omega
      · rw [hlp] at hdyle ⊢
        simp at hdyle ⊢
        omega

/-- What `dt + timedelta(seconds=n)` returns, when it does not raise, is
the datetime exactly `n` seconds after `dt` on the linear timeline, and it
is a valid datetime. -/
theorem addTimedelta_spec (dt : DateTime) (n : Int) (e : DateTime)
    (h : addTimedelta dt n = some e) :
    toSecs e = toSecs dt + n ∧ ValidDT e := by
  simp only [addTimedelta] at h
  split at h
  · cases h
  · split at h
    · cases h
    · split at h
      case isFalse => cases h
      case isTrue hcond =>
        rcases hymd : ord2ymd (Int.toNat ((toSecs dt + n) / 86400)) with ⟨y, mo, dd⟩
        rw [hymd] at h
        simp only [Option.some.injEq] at h
        subst h
        simp only [MAXORDINAL] at hcond
        generalize hT : toSecs dt = T at hcond hymd ⊢
        have hday1 : 1 ≤ Int.toNat ((T + n) / 86400) := by omega
        have hday2 : Int.toNat ((T + n) / 86400) ≤ MAXORDINAL := by
          simp only [MAXORDINAL]
          omega
        have hspec := ord2ymd_spec _ hday1 hday2
        rw [hymd] at hspec
        simp only [] at hspec
        obtain ⟨hord, hy1, hy9999, hm1, hm12, hd1, hdle⟩ := hspec
        clear * - hcond hord hy1 hy9999 hm1 hm12 hd1 hdle
        constructor
        · simp only [toSecs]
          omega
        · simp only [ValidDT]
          exact ⟨hy1, hy9999, hm1, hm12, hd1, hdle, by omega, by omega, by omega⟩

/-! ## The `datetime` comparison agrees with the linear timeline -/

theorem dBY_succ (y : Nat) (h : 1 ≤ y) :
    daysBeforeYear (y + 1) = daysBeforeYear y + 365 + (if isLeap y = true then 1 else 0) := by
  rcases Bool.eq_false_or_eq_true (isLeap y) with h1 | h0
  · obtain ⟨hP4, hP⟩ := (isLeap_iff y).mp h1
    simp only [daysBeforeYear, h1, eq_self_iff_true, if_true, Nat.add_sub_cancel]
    have e4 : y / 4 = (y - 1) / 4 + 1 := by omega
    rcases hP with h100 | h400
    · have e100 : y / 100 = (y - 1) / 100 := by omega
      have e400 : y / 400 = (y - 1) / 400 := by omega
      omega
    · have e100 : y / 100 = (y - 1) / 100 + 1 := by omega
      have e400 : y / 400 = (y - 1) / 400 + 1 := by omega
      omega
  · have hP : ¬(y % 4 = 0 ∧ (y % 100 ≠ 0 ∨ y % 400 = 0)) := by
      rw [← isLeap_iff, h0]
      simp
    simp only [daysBeforeYear, h0, Bool.false_eq_true, if_false, Nat.add_sub_cancel]
    by_cases h4 : y % 4 = 0
    · have h100 : y % 100 = 0 := by omega
      have h400 : y % 400 ≠ 0 := by omega
      have e4 : y / 4 = (y - 1) / 4 + 1 := by omega
      have e100 : y / 100 = (y - 1) / 100 + 1 := by omega
      have e400 : y / 400 = (y - 1) / 400 := by omega
      omega
    · have e4 : y / 4 = (y - 1) / 4 := by omega
      have e100 : y / 100 = (y - 1) / 100 := by omega
      have e400 : y / 400 = (y - 1) / 400 := by omega
      omega

theorem dBY_mono (y y' : Nat) (h : y ≤ y') : daysBeforeYear y ≤ daysBeforeYear y' := by
  simp only [daysBeforeYear]
  have h4 : (y - 1) / 4 ≤ (y' - 1) / 4 := Nat.div_le_div_right (by omega)
  have h100 : (y' - 1) / 100 ≤ (y - 1) / 100 + ((y' - 1) - (y - 1)) := by omega
  have h400 : (y - 1) / 400 ≤ (y' - 1) / 400 := Nat.div_le_div_right (by omega)
  omega

theorem dayyear_le : ∀ m < 13, ∀ l : Bool, 1 ≤ m →
    DAYS_BEFORE_MONTH m + (if m > 2 ∧ l = true then 1 else 0)
      + (if m = 2 ∧ l = true then 29 else DAYS_IN_MONTH m)
      ≤ 365 + (if l = true then 1 else 0) := by decide

theorem dbm_mono : ∀ m' < 13, ∀ m, m < m' → ∀ l : Bool, 1 ≤ m →
    DAYS_BEFORE_MONTH m + (if m > 2 ∧ l = true then 1 else 0)
      + (if m = 2 ∧ l = true then 29 else DAYS_IN_MONTH m)
      ≤ DAYS_BEFORE_MONTH m' + (if m' > 2 ∧ l = true then 1 else 0) := by decide

theorem ymd2ord_lt (a b : DateTime) (ha : ValidDT a) (hb : ValidDT b)
    (hlex : a.year < b.year ∨ (a.year = b.year ∧ (a.month < b.month ∨
      (a.month = b.month ∧ a.day < b.day)))) :
    ymd2ord a.year a.month a.day < ymd2ord b.year b.month b.day := by
  obtain ⟨hay, hay9, ham1, ham12, had1, hadle, -, -, -⟩ := ha
  obtain ⟨hby, hby9, hbm1, hbm12, hbd1, hbdle, -, -, -⟩ := hb
  simp only [daysInMonth] at hadle hbdle
  rcases hlex with hy | ⟨hy, hrest⟩
  · have h1 := dayyear_le a.month (by omega) (isLeap a.year) ham1
    have h2 : daysBeforeYear (a.year + 1)
        = daysBeforeYear a.year + 365 + (if isLeap a.year = true then 1 else 0) :=
      dBY_succ a.year hay
    have h3 : daysBeforeYear (a.year + 1) ≤ daysBeforeYear b.year := dBY_mono _ _ (by omega)
    simp only [ymd2ord, daysBeforeMonth]
    omega
  · rcases hrest with hm | ⟨hm, hd⟩
    · have h1 := dbm_mono b.month (by omega) a.month hm (isLeap a.year) ham1
      simp only [ymd2ord, daysBeforeMonth, hy]
      rw [hy] at hadle h1
      omega
    · simp only [ymd2ord, daysBeforeMonth, hy, hm]
      omega

theorem dtLt_lex (a b : DateTime) :
    dtLt a b = true ↔
      (a.year < b.year ∨ (a.year = b.year ∧ (a.month < b.month ∨ (a.month = b.month ∧
        (a.day < b.day ∨ (a.day = b.day ∧ (a.hour < b.hour ∨ (a.hour = b.hour ∧
          (a.minute < b.minute ∨ (a.minute = b.minute ∧ a.second < b.second)))))))))) := by
  unfold dtLt
  split_ifs <;> simp_all <;> omega

theorem toSecs_lt_of_lex (a b : DateTime) (ha : ValidDT a) (hb : ValidDT b)
    (h : a.year < b.year ∨ (a.year = b.year ∧ (a.month < b.month ∨ (a.month = b.month ∧
        (a.day < b.day ∨ (a.day = b.day ∧ (a.hour < b.hour ∨ (a.hour = b.hour ∧
          (a.minute < b.minute ∨ (a.minute = b.minute ∧ a.second < b.second)))))))))) :
    toSecs a < toSecs b := by
  have hta := ha
  have htb := hb
  obtain ⟨-, -, -, -, -, -, hah, ham, has⟩ := hta
  obtain ⟨-, -, -, -, -, -, hbh, hbm, hbs⟩ := htb
  by_cases hdate : a.year < b.year ∨ (a.year = b.year ∧ (a.month < b.month ∨
      (a.month = b.month ∧ a.day < b.day)))
  · have hord := ymd2ord_lt a b ha hb hdate
    simp only [toSecs]
    omega
  · have heq : a.year = b.year ∧ a.month = b.month ∧ a.day = b.day ∧
        (a.hour < b.hour ∨ (a.hour = b.hour ∧ (a.minute < b.minute ∨
          (a.minute = b.minute ∧ a.second < b.second)))) := by
      omega
    obtain ⟨hy, hm, hd, htime⟩ := heq
    simp only [toSecs, hy, hm, hd]
    omega

theorem dtLt_iff_toSecs (a b : DateTime) (ha : ValidDT a) (hb : ValidDT b) :
    dtLt a b = true ↔ toSecs a < toSecs b := by
  constructor
  · intro h
    exact toSecs_lt_of_lex a b ha hb ((dtLt_lex a b).mp h)
  · intro h
    by_contra hno
    have hfalse : ¬(a.year < b.year ∨ (a.year = b.year ∧ (a.month < b.month ∨ (a.month = b.month ∧
        (a.day < b.day ∨ (a.day = b.day ∧ (a.hour < b.hour ∨ (a.hour = b.hour ∧
          (a.minute < b.minute ∨ (a.minute = b.minute ∧ a.second < b.second)))))))))) := by
      intro hlex
      exact hno ((dtLt_lex a b).mpr hlex)
    have hcases : (b.year < a.year ∨ (b.year = a.year ∧ (b.month < a.month ∨ (b.month = a.month ∧
        (b.day < a.day ∨ (b.day = a.day ∧ (b.hour < a.hour ∨ (b.hour = a.hour ∧
          (b.minute < a.minute ∨ (b.minute = a.minute ∧ b.second < a.second))))))))))
        ∨ (a.year = b.year ∧ a.month = b.month ∧ a.day = b.day ∧ a.hour = b.hour ∧
            a.minute = b.minute ∧ a.second = b.second) := by
      omega
    rcases hcases with hlt | heq
    · have := toSecs_lt_of_lex b a hb ha hlt
      omega
    · have hab : a = b := by
        cases a
        cases b
        simp_all
      rw [hab] at h
      omega

/-! ## `parse_qs` takes the first value of a repeated name -/

theorem addPair_ne_nil (d : List (List Char × List (List Char))) (p : List Char × List Char)
    (hd : ∀ e ∈ d, e.2 ≠ []) : ∀ e ∈ addPair d p, e.2 ≠ [] := by
  intro e he
  unfold addPair at he
  split at he
  · obtain ⟨e0, he0, rfl⟩ := List.mem_map.mp he
    split
    · simp
    · exact hd e0 he0
  · rcases List.mem_append.mp he with h | h
    · exact hd e h
    · simp at h
      subst h
      simp

theorem find?_addPair (d : List (List Char × List (List Char))) (p : List Char × List Char)
    (n : List Char) :
    (addPair d p).find? (fun e => e.1 == n)
      = if (p.1 == n) = true then
          match d.find? (fun e => e.1 == n) with
          | some e => some (e.1, e.2 ++ [p.2])
          | none => some (p.1, [p.2])
        else d.find? (fun e => e.1 == n) := by
  have hkey : ∀ e : List Char × List (List Char),
      ((if e.1 == p.1 then (e.1, e.2 ++ [p.2]) else e).1 == n) = (e.1 == n) := by
    intro e
    by_cases h : (e.1 == p.1) = true <;> simp [h]
  have hcomp : ((fun e : List Char × List (List Char) => e.1 == n) ∘
        (fun e => if e.1 == p.1 then (e.1, e.2 ++ [p.2]) else e))
      = (fun e : List Char × List (List Char) => e.1 == n) := funext hkey
  by_cases hpn : (p.1 == n) = true
  · have hp1 : p.1 = n := eq_of_beq hpn
    unfold addPair
    split
    next hany =>
      rw [List.find?_map, hcomp]
      rcases hfind : d.find? (fun e => e.1 == n) with _ | e0 <;> rw [hfind]
      · exfalso
        rw [List.find?_eq_none] at hfind
        rcases List.any_eq_true.mp hany with ⟨x, hx, hpx⟩
        exact hfind x hx (by rw [hp1] at hpx; exact hpx)
      · have he0 : (e0.1 == n) = true := by
          have := List.find?_some hfind
          simpa using this
        have heqP : e0.1 = p.1 := by
          rw [hp1]
          exact eq_of_beq he0
        simp [heqP, hpn]
    next hany =>
      have hnone : d.find? (fun e => e.1 == n) = none := by
        rw [List.find?_eq_none]
        intro x hx hpx
        rw [List.any_eq_true] at hany
        exact hany ⟨x, hx, by rw [← hp1] at hpx; exact hpx⟩
      rw [List.find?_append, hnone]
      have hsingle : ([(p.1, [p.2])].find? (fun e => e.1 == n)) = some (p.1, [p.2]) :=
        List.find?_cons_of_pos _ (by simpa using hpn)
      rw [hsingle]
      simp only [hpn, eq_self_iff_true, if_true]
      rfl
  · have hpn' : (p.1 == n) = false := by simpa using hpn
    unfold addPair
    split
    next hany =>
      rw [List.find?_map, hcomp]
      rcases hfind : d.find? (fun e => e.1 == n) with _ | e0 <;> rw [hfind]
      · simp [hpn']
      · have he0 : (e0.1 == n) = true := by
          have := List.find?_some hfind
          simpa using this
        have hne : (e0.1 == p.1) = false := by
          rcases Bool.eq_false_or_eq_true (e0.1 == p.1) with htr | hfa
          · exfalso
            have hx : e0.1 = p.1 := eq_of_beq htr
            rw [hx] at he0
            rw [he0] at hpn'
            cases hpn'
          · exact hfa
        have hneP : ¬(e0.1 = p.1) := by
          intro hx
          rw [hx] at he0
          rw [he0] at hpn'
          cases hpn'
        simp [hpn', hneP]
    next hany =>
      have hsingle : ([(p.1, [p.2])].find? (fun e => e.1 == n)) = none := by
        rw [List.find?_eq_none]
        intro x hx
        simp at hx
        subst hx
        simp [hpn']
      rw [List.find?_append, hsingle]
      simp [hpn']

end PresignedCheck

namespace PresignedCheck

theorem find?_parseQs_fold (pairs : List (List Char × List Char))
    (d : List (List Char × List (List Char))) (n : List Char)
    (hd : ∀ e ∈ d, e.2 ≠ []) :
    ((List.foldl addPair d pairs).find? (fun e => e.1 == n)).bind (fun e => e.2.head?)
      = match d.find? (fun e => e.1 == n) with
        | some e => e.2.head?
        | none => (pairs.find? (fun q => q.1 == n)).map Prod.snd := by
  induction pairs generalizing d with
  | nil =>
    simp only [List.foldl_nil]
    rcases hfind : d.find? (fun e => e.1 == n) with _ | e <;> rw [hfind] <;> rfl
  | cons p rest ih =>
    simp only [List.foldl_cons]
    rw [ih (addPair d p) (addPair_ne_nil d p hd), find?_addPair]
    by_cases hpn : (p.1 == n) = true
    · rw [if_pos hpn]
      rcases hfind : d.find? (fun e => e.1 == n) with _ | e <;> rw [hfind] <;> dsimp only
      · rw [@List.find?_cons_of_pos _ (fun q : List Char × List Char => q.1 == n) p rest hpn]
        rfl
      · have hmem : e ∈ d := List.mem_of_find?_eq_some hfind
        obtain ⟨v, vs, hv⟩ := List.exists_cons_of_ne_nil (hd e hmem)
        rw [hv]
        rfl
    · rw [if_neg hpn]
      rcases hfind : d.find? (fun e => e.1 == n) with _ | e <;> rw [hfind] <;> dsimp only
      · rw [@List.find?_cons_of_neg _ (fun q : List Char × List Char => q.1 == n) p rest hpn]

theorem paramsGet_first (qs name : List Char) :
    paramsGet qs name = ((parseQsl qs).find? (fun q => q.1 == name)).map Prod.snd := by
  unfold paramsGet parseQs
  have h := find?_parseQs_fold (parseQsl qs) [] name (by simp)
  rcases hres : (List.foldl addPair [] (parseQsl qs)).find? (fun e => e.1 == name) with _ | e <;>
    rw [hres] at h ⊢ <;> simpa using h

/-! ## Query extraction never raises without brackets; dropped empty values -/

theorem splitScheme_subset (l : List Char) (c : Char) (h : c ∈ splitScheme l) : c ∈ l := by
  unfold splitScheme at h
  dsimp only at h
  split at h
  next after heq =>
    split at h
    · exact h
    next hd tl =>
      split at h
      · have : c ∈ l.dropWhile (fun c => c != ':') := by
          rw [heq]
          exact List.mem_cons_of_mem _ h
        exact (List.dropWhile_suffix _).sublist.mem this
      · exact h
  next => exact h

theorem extractQuery_ok (url : List Char) (h1 : '[' ∉ url) (h2 : ']' ∉ url) :
    ∃ q, extractQuery url = Except.ok q := by
  unfold extractQuery
  dsimp only
  split
  next rest heq =>
    have hm : ∀ c, c ∈ rest.takeWhile notNetlocDelim → c ∈ url := by
      intro c hc
      have hrest : c ∈ rest := ( List.takeWhile_prefix _).sublist.mem hc
      have h3 : c ∈ splitScheme (url.filter (fun c => c != '\t' && c != '\r' && c != '\n')) := by
        rw [heq]
        exact List.mem_cons_of_mem _ (List.mem_cons_of_mem _ hrest)
      have h4 := splitScheme_subset _ _ h3
      exact (List.mem_filter.mp h4).1
    rw [if_neg]
    · exact ⟨_, rfl⟩
    · rintro (⟨ha, -⟩ | ⟨ha, -⟩)
      · exact h1 (hm _ ha)
      · exact h2 (hm _ ha)
  next => exact ⟨_, rfl⟩

theorem parseQsl_mem (qs : List Char) (pr : List Char × List Char) (h : pr ∈ parseQsl qs) :
    ∃ a ∈ splitChar '&' qs, ∃ nm v, splitFirstEq a = some (nm, v) ∧ v ≠ [] ∧
      pr = (qslDecode nm, qslDecode v) := by
  unfold parseQsl at h
  split at h
  · cases h
  · obtain ⟨a, ha, hqa⟩ := List.mem_filterMap.mp h
    unfold qslPair at hqa
    split at hqa
    · cases hqa
    · split at hqa
      · cases hqa
      next nm v heq =>
        split at hqa
        · cases hqa
        next hv =>
          simp only [Option.some.injEq] at hqa
          exact ⟨a, ha, nm, v, heq, hv, hqa.symm⟩

theorem paramsGet_eq_none (qs name : List Char)
    (h : ∀ a ∈ splitChar '&' qs, ∀ nm v, splitFirstEq a = some (nm, v) →
          qslDecode nm = name → v = []) :
    paramsGet qs name = none := by
  rw [paramsGet_first]
  rcases hf : (parseQsl qs).find? (fun q => q.1 == name) with _ | pr
  · rw [hf]
    rfl
  · exfalso
    have hpred : (pr.1 == name) = true := by
      have := List.find?_some hf
      simpa using this
    have hmem := List.mem_of_find?_eq_some hf
    obtain ⟨a, ha, nm, v, hsp, hv, hpr⟩ := parseQsl_mem qs pr hmem
    have hdec : qslDecode nm = name := by
      have hx := eq_of_beq hpred
      rw [hpr] at hx
      simpa using hx
    exact hv (h a ha nm v hsp hdec)

/-! ## Nonempty decodings: parameters found are never empty strings -/

theorem pctDecode_ne_nil (l : List Char) (h : l ≠ []) : pctDecode l ≠ [] := by
  unfold pctDecode
  split
  · exact absurd rfl h
  · split <;> simp
  · simp
  · simp

theorem utf8DecodeReplace_ne_nil (l : List UInt8) (h : l ≠ []) : utf8DecodeReplace l ≠ [] := by
  rcases l with _ | ⟨b, rest⟩
  · exact absurd rfl h
  · rw [utf8DecodeReplace.eq_def]
    dsimp only
    repeat' split
    all_goals (try (intro hx; exact List.noConfusion hx))

theorem unquoteCore_ne_nil (l : List Char) (h : l ≠ []) : unquoteCore l ≠ [] := by
  rcases l with _ | ⟨c, rest⟩
  · exact absurd rfl h
  · rw [unquoteCore]
    split
    next hc =>
      rw [List.takeWhile_cons_of_pos hc]
      intro hcontra
      rcases List.append_eq_nil.mp hcontra with ⟨h1, -⟩
      exact utf8DecodeReplace_ne_nil _ (pctDecode_ne_nil _ (by simp)) h1
    · simp

theorem qslDecode_ne_nil (l : List Char) (h : l ≠ []) : qslDecode l ≠ [] := by
  unfold qslDecode unquoteChars
  split
  · apply unquoteCore_ne_nil
    unfold plusToSpace
    intro hx
    exact h (by simpa using hx)
  · unfold plusToSpace
    intro hx
    exact h (by simpa using hx)

theorem paramsGet_some_ne_nil (qs name v : List Char) (h : paramsGet qs name = some v) :
    v ≠ [] := by
  rw [paramsGet_first] at h
  rcases hf : (parseQsl qs).find? (fun q => q.1 == name) with _ | pr
  · rw [hf] at h
    cases h
  · rw [hf] at h
    simp at h
    obtain ⟨a, -, nm, w, -, hw, hpr⟩ := parseQsl_mem qs pr (List.mem_of_find?_eq_some hf)
    rw [← h, hpr]
    exact qslDecode_ne_nil w hw

/-! ## Program-level helpers -/

set_option maxHeartbeats 1000000

theorem runChecker_two (p url : List Char) (now : DateTime) :
    runChecker [p, url] now = renderOutcome (checkUrl url now) := rfl

theorem run_missing (p url : List Char) (now : DateTime) (q : List Char)
    (hq : extractQuery url = Except.ok q)
    (hmiss : paramsGet q dateName = none ∨ paramsGet q expName = none) :
    runChecker [p, url] now = ⟨[missingMsg], 1, false⟩ := by
  rw [runChecker_two]
  unfold checkUrl
  rw [hq]
  dsimp only
  rcases hmiss with h | h
  · rw [h]
    rcases hx : paramsGet q expName with _ | es <;> rfl
  · rw [h]
    rcases hx : paramsGet q dateName with _ | ds <;> rfl

theorem checkUrl_report (url : List Char) (now dt e : DateTime) (q ds es : List Char) (n : Int)
    (hq : extractQuery url = Except.ok q)
    (hds : paramsGet q dateName = some ds)
    (hes : paramsGet q expName = some es)
    (hdt : strptimeZ ds = Except.ok dt)
    (hn : pyInt es = Except.ok n)
    (he : addTimedelta dt n = some e) :
    checkUrl url now = Outcome.report dt e now := by
  have hdsne := paramsGet_some_ne_nil q dateName ds hds
  have hesne := paramsGet_some_ne_nil q expName es hes
  unfold checkUrl
  rw [hq]
  dsimp only
  rw [hds, hes]
  dsimp only
  rw [if_neg (show ¬(ds = [] ∨ es = []) from fun hc => hc.elim hdsne hesne)]
  rw [hdt]
  dsimp only
  rw [hn]
  dsimp only
  rw [he]

/-! ## Claims: missing parameters, first occurrence, usage, single clock sample, empty values -/

set_option maxHeartbeats 1000000

/-- C3: for every URL whose parsed query parameters lack `X-Amz-Date` or
lack `X-Amz-Expires` (case-sensitive exact name match on the parsed
mapping), the program prints exactly the diagnostic
`Could not find X-Amz-Date or X-Amz-Expires in the URL.`, exits with
status 1, and prints no timestamp report. -/
theorem claim_c3 (p url : List Char) (now : DateTime) (q : List Char)
    (hq : extractQuery url = Except.ok q)
    (hmiss : paramsGet q dateName = none ∨ paramsGet q expName = none) :
    runChecker [p, url] now = ⟨[missingMsg], 1, false⟩ :=
  run_missing p url now q hq hmiss

/-- Witness for C3 at the spec's Scenario C URL. -/
theorem claim_c3_witness :
    extractQuery ("https://x.example.com/obj?X-Amz-Expires=3600".data)
        = Except.ok ("X-Amz-Expires=3600".data)
      ∧ paramsGet ("X-Amz-Expires=3600".data) dateName = none
      ∧ runChecker ["prog".data, "https://x.example.com/obj?X-Amz-Expires=3600".data]
          ⟨2026, 10, 12, 0, 0, 0⟩
        = ⟨[missingMsg], 1, false⟩ :=
  ⟨by rfl, by decide,
    claim_c3 ("prog".data) _ _ ("X-Amz-Expires=3600".data) (by rfl) (Or.inl (by decide))⟩

/-- C6: `parse_qs(...).get(name, [None])[0]` is the value of the first
occurrence of `name` in document order of the query string; later
occurrences never affect it. -/
theorem claim_c6 (qs name : List Char) :
    paramsGet qs name = ((parseQsl qs).find? (fun pr => pr.1 == name)).map Prod.snd :=
  paramsGet_first qs name

/-- C8: invoked with an argument count other than one, the program prints
exactly the usage line, exits 1, and its behaviour does not depend on the
clock (the URL and clock are never consulted). -/
theorem claim_c8 (argv : List (List Char)) (now now' : DateTime) (h : argv.length ≠ 2) :
    runChecker argv now = ⟨[usageMsg], 1, false⟩
      ∧ runChecker argv now = runChecker argv now' := by
  rcases argv with _ | ⟨a, _ | ⟨b, _ | ⟨c, t⟩⟩⟩
  · exact ⟨rfl, rfl⟩
  · exact ⟨rfl, rfl⟩
  · exact absurd rfl h
  · exact ⟨rfl, rfl⟩

/-- Witness for C8: zero user arguments. -/
theorem claim_c8_witness :
    (["prog".data] : List (List Char)).length ≠ 2
      ∧ runChecker ["prog".data] ⟨2026, 10, 12, 0, 0, 0⟩ = ⟨[usageMsg], 1, false⟩ :=
  ⟨by decide,
    (claim_c8 ["prog".data] ⟨2026, 10, 12, 0, 0, 0⟩ ⟨2027, 1, 1, 0, 0, 0⟩ (by decide)).1⟩

/-- C10: for either required parameter — `X-Amz-Date` or `X-Amz-Expires` —
when every query atom whose decoded name is that parameter has an empty
value (the parameter is present but empty, e.g. the query ends in
`X-Amz-Expires=`), `parse_qs` drops those atoms, the lookup returns `None`
exactly as if the parameter were absent, and the program prints the
missing-parameter diagnostic and exits 1 without reaching the parse step. -/
theorem claim_c10 (p url : List Char) (now : DateTime) (q name : List Char)
    (hname : name = dateName ∨ name = expName)
    (hq : extractQuery url = Except.ok q)
    (hpresent : ∃ a ∈ splitChar '&' q, ∃ nm,
        splitFirstEq a = some (nm, []) ∧ qslDecode nm = name)
    (hall : ∀ a ∈ splitChar '&' q, ∀ nm v, splitFirstEq a = some (nm, v) →
        qslDecode nm = name → v = []) :
    paramsGet q name = none ∧
    runChecker [p, url] now = ⟨[missingMsg], 1, false⟩ := by
  have hnone := paramsGet_eq_none q name hall
  refine ⟨hnone, ?_⟩
  rcases hname with h | h
  · exact run_missing p url now q hq (Or.inl (h ▸ hnone))
  · exact run_missing p url now q hq (Or.inr (h ▸ hnone))

/-- Witness for C10, covering both halves of the claim: a URL with an empty
`X-Amz-Date` value, and a URL ending in `X-Amz-Expires=`. -/
theorem claim_c10_witness :
    (paramsGet ("X-Amz-Date=&X-Amz-Expires=3600".data) dateName = none
      ∧ runChecker ["prog".data,
          "https://x.example.com/obj?X-Amz-Date=&X-Amz-Expires=3600".data]
          ⟨2026, 10, 12, 0, 0, 0⟩
        = ⟨[missingMsg], 1, false⟩)
    ∧ (paramsGet ("X-Amz-Date=20240101T000000Z&X-Amz-Expires=".data) expName = none
      ∧ runChecker ["prog".data,
          "https://x.example.com/obj?X-Amz-Date=20240101T000000Z&X-Amz-Expires=".data]
          ⟨2026, 10, 12, 0, 0, 0⟩
        = ⟨[missingMsg], 1, false⟩) := by
  constructor
  · refine claim_c10 ("prog".data) _ ⟨2026, 10, 12, 0, 0, 0⟩
      ("X-Amz-Date=&X-Amz-Expires=3600".data) dateName (Or.inl rfl) (by rfl)
      ⟨"X-Amz-Date=".data, by decide, "X-Amz-Date".data, by decide, by decide⟩ ?_
    intro a ha nm v hsp hdec
    rw [show splitChar '&' ("X-Amz-Date=&X-Amz-Expires=3600".data)
        = ["X-Amz-Date=".data, "X-Amz-Expires=3600".data] from by decide] at ha
    simp only [List.mem_cons, List.not_mem_nil, or_false] at ha
    rcases ha with ha | ha
    · subst ha
      rw [show splitFirstEq ("X-Amz-Date=".data)
          = some ("X-Amz-Date".data, ([] : List Char)) from by decide] at hsp
      simp only [Option.some.injEq, Prod.mk.injEq] at hsp
      exact hsp.2.symm
    · subst ha
      rw [show splitFirstEq ("X-Amz-Expires=3600".data)
          = some ("X-Amz-Expires".data, "3600".data) from by decide] at hsp
      simp only [Option.some.injEq, Prod.mk.injEq] at hsp
      obtain ⟨hnm, hv⟩ := hsp
      subst hnm
      exact absurd hdec (by decide)
  · refine claim_c10 ("prog".data) _ ⟨2026, 10, 12, 0, 0, 0⟩
      ("X-Amz-Date=20240101T000000Z&X-Amz-Expires=".data) expName (Or.inr rfl) (by rfl)
      ⟨"X-Amz-Expires=".data, by decide, "X-Amz-Expires".data, by decide, by decide⟩ ?_
    intro a ha nm v hsp hdec
    rw [show splitChar '&' ("X-Amz-Date=20240101T000000Z&X-Amz-Expires=".data)
        = ["X-Amz-Date=20240101T000000Z".data, "X-Amz-Expires=".data] from by decide] at ha
    simp only [List.mem_cons, List.not_mem_nil, or_false] at ha
    rcases ha with ha | ha
    · subst ha
      rw [show splitFirstEq ("X-Amz-Date=20240101T000000Z".data)
          = some ("X-Amz-Date".data, "20240101T000000Z".data) from by decide] at hsp
      simp only [Option.some.injEq, Prod.mk.injEq] at hsp
      obtain ⟨hnm, hv⟩ := hsp
      subst hnm
      exact absurd hdec (by decide)
    · subst ha
      rw [show splitFirstEq ("X-Amz-Expires=".data)
          = some ("X-Amz-Expires".data, ([] : List Char)) from by decide] at hsp
      simp only [Option.some.injEq, Prod.mk.injEq] at hsp
      exact hsp.2.symm

/-! ## Claims: validity window, expiry arithmetic, negative expiry, parse failures, URL decomposition -/

set_option maxHeartbeats 1000000

/-- C5 counterexample: URL decomposition CAN produce its own error class:
an unbalanced `[` in the authority makes `urlparse` raise
`ValueError("Invalid IPv6 URL")`, which is uncaught — the run crashes with
exit status 1 and prints no diagnostic at all, rather than being treated
as "parameter not found". -/
theorem claim_c5_counterexample :
    extractQuery ("http://[x?X-Amz-Date=20240101T000000Z&X-Amz-Expires=3600".data)
      = Except.error ("Invalid IPv6 URL".data)
    ∧ runChecker ["prog".data,
        "http://[x?X-Amz-Date=20240101T000000Z&X-Amz-Expires=3600".data]
        ⟨2026, 10, 12, 0, 0, 0⟩
      = ⟨[], 1, true⟩ :=
  ⟨by rfl, by rfl⟩

/-- C5 (amended): for all-ASCII URLs containing no square bracket, URL
decomposition never errors — every such URL yields a query component — and
a malformed URL whose query lacks the required parameters is handled as
"parameter not found" (the missing-parameter diagnostic, exit 1), not as a
distinct URL-parse error.  Outside this scope URL decomposition IS its own
uncaught error class: an unbalanced bracket raises
`ValueError("Invalid IPv6 URL")` (the counterexample), and a non-ASCII
netloc can raise `ValueError` under `_checknetloc`'s NFKC validation.  The
all-ASCII hypothesis marks that boundary of the model (see
`extractQuery`); on ASCII input `_checknetloc` returns without raising, so
the hypothesis is not otherwise consumed inside the model. -/
theorem claim_c5_amended (p url : List Char) (now : DateTime)
    (hascii : ∀ c ∈ url, c.toNat < 128)
    (h1 : '[' ∉ url) (h2 : ']' ∉ url) :
    (∃ q, extractQuery url = Except.ok q)
    ∧ ∀ q, extractQuery url = Except.ok q →
        (paramsGet q dateName = none ∨ paramsGet q expName = none) →
        runChecker [p, url] now = ⟨[missingMsg], 1, false⟩ :=
  ⟨extractQuery_ok url h1 h2, fun q hq hm => run_missing p url now q hq hm⟩

/-- Witness for the amended C5: an all-ASCII, bracket-free malformed-ish
URL whose query lacks both parameters. -/
theorem claim_c5_witness :
    (∀ c ∈ ("https://x.example.com/obj?foo=1".data), c.toNat < 128)
    ∧ '[' ∉ ("https://x.example.com/obj?foo=1".data)
    ∧ runChecker ["prog".data, "https://x.example.com/obj?foo=1".data]
        ⟨2026, 10, 12, 0, 0, 0⟩
      = ⟨[missingMsg], 1, false⟩ :=
  ⟨by decide, by decide,
    (claim_c5_amended ("prog".data) ("https://x.example.com/obj?foo=1".data)
        ⟨2026, 10, 12, 0, 0, 0⟩ (by decide) (by decide) (by decide)).2
      ("foo=1".data) (by rfl) (Or.inl (by decide))⟩

end PresignedCheck
